import Mathlib

/-!
Verification development for the wArgs type-resolution, MRO parameter-merge
and argument-configuration pipeline.

Shallow embedding of:
  - src/wargs/introspection/types.py   (resolve_type and helpers)
  - src/wargs/converters/registry.py   (ConverterRegistry.get)
  - src/wargs/introspection/mro.py     (merge_parameters, traverse_mro)
  - src/wargs/builders/arguments.py    (build_argument_config and helpers)

Python runtime values and type objects are modelled by explicit inductive
types; Python `dict` lookup is modelled by association lists; functions that
signal through `warnings.warn` are modelled by returning the list of emitted
warnings alongside their result.
-/

/-- A Python runtime value, as far as the embedded code inspects one:
literal constants, default values and the MISSING sentinel
(src/wargs/core/config.py, `_Missing`). `vobj` stands for any other object,
identified by a tag and carrying its rendered `str`/`repr` text. -/
inductive PV where
  | vnone
  | vmissing
  | vstr (s : String)
  | vint (n : Int)
  | vbool (b : Bool)
  | vobj (id : Nat) (rep : String)
deriving DecidableEq, Repr

/-- The four collection classes in `COLLECTION_TYPES`
(src/wargs/introspection/types.py line 28). -/
inductive CollKind where
  | list | tuple | set | frozenset
deriving DecidableEq, Repr

mutual
/-- A Python annotation value as inspected by the resolver.

  * `noneAnn`    : the object `None` used as an annotation
  * `none_t`     : the class `type(None)` (NoneType)
  * `str_t` .. `path_t` : the five basic classes of `BASIC_TYPES`
  * `purePath_t`, `obj_t` : `PurePath` and `object`, which occur only as MRO
    ancestors of the basic classes
  * `ellipsisT`  : the `...` object (occurs in `tuple[T, ...]` arguments)
  * `classT cid mro members` : a user class with identity `cid`, with
    `mro` modelling `cls.__mro__[1:]`; `members = some names` iff the class
    is an `Enum` subclass whose member names, in declaration order, are
    `names`
  * `unionT tys` : a union annotation (`Union[...]` / `X | Y`) with the
    flattened argument list `tys` as returned by `get_args`
  * `unionForm`  : the bare `typing.Union` special form (what `get_origin`
    returns for a union annotation)
  * `literalT vals` : a `Literal[...]` annotation with constants `vals`
  * `literalForm`   : the bare `typing.Literal` special form
  * `collT k tys`   : a collection annotation; `tys = .nil` is the bare
    class (e.g. `list`), otherwise the generic alias (e.g. `list[int]`)
    with `get_args` result `tys`
  * `annotObj`   : any other non-type annotation object (e.g. an
    unresolved forward-reference string). -/
inductive PT where
  | noneAnn
  | none_t
  | str_t
  | int_t
  | float_t
  | bool_t
  | path_t
  | purePath_t
  | obj_t
  | ellipsisT
  | classT (cid : Nat) (mro : PTList) (members : Option (List String))
  | unionT (tys : PTList)
  | unionForm
  | literalT (vals : List PV)
  | literalForm
  | collT (k : CollKind) (tys : PTList)
  | annotObj
/-- A list of `PT` (spelled out so that decidable equality is derivable for
the mutual pair). -/
inductive PTList where
  | nil
  | cons (head : PT) (tail : PTList)
end

deriving instance DecidableEq for PT, PTList
deriving instance Repr for PT, PTList

/-- Membership test on `PTList` (models Python `x in args`). -/
def PTList.memB (a : PT) : PTList → Bool
  | .nil => false
  | .cons h t => a = h || PTList.memB a t

/-- Filter on `PTList` (models a Python list comprehension with a guard). -/
def PTList.filterB (p : PT → Bool) : PTList → PTList
  | .nil => .nil
  | .cons h t => if p h then .cons h (PTList.filterB p t) else PTList.filterB p t

/-- Length of a `PTList` (models `len`). -/
def PTList.length : PTList → Nat
  | .nil => 0
  | .cons _ t => 1 + PTList.length t

/-- First element with a default (callers guard non-emptiness, as the
source guards `args[0]` by `if args`). -/
def PTList.headD (d : PT) : PTList → PT
  | .nil => d
  | .cons h _ => h

/-- Last element with a default (models `args[-1]`, guarded by callers). -/
def PTList.lastD (d : PT) : PTList → PT
  | .nil => d
  | .cons h .nil => h
  | .cons _ (.cons h t) => PTList.lastD d (.cons h t)

/-- Models `arg is not type(None)` from `_is_optional_type`
(src/wargs/introspection/types.py lines 51, 64). -/
def PT.is_not_none_type : PT → Bool
  | .none_t => false
  | _ => true

/-- Models `isinstance(x, type)`: classes are types; unions, special forms,
literal aliases, generic aliases, `None`, `...` and other objects are not. -/
def PT.isinstance_type : PT → Bool
  | .none_t | .str_t | .int_t | .float_t | .bool_t | .path_t
  | .purePath_t | .obj_t => true
  | .classT _ _ _ => true
  | .collT _ .nil => true
  | _ => false

/-- Models `type_.__mro__[1:]` for the type objects the registry walks:
`bool` derives from `int`, `Path` from `PurePath`, every class from
`object`; for a user class the stored chain is returned. Non-type values
never reach an `__mro__` access in the embedded code. -/
def PT.mro_rest : PT → PTList
  | .classT _ m _ => m
  | .bool_t => .cons .int_t (.cons .obj_t .nil)
  | .path_t => .cons .purePath_t (.cons .obj_t .nil)
  | .str_t | .int_t | .float_t | .purePath_t | .none_t => .cons .obj_t .nil
  | .collT _ .nil => .cons .obj_t .nil
  | _ => .nil

/-- The type of a literal constant (models `type(v)` on the values that can
appear in a `Literal` annotation; `vobj`/`vmissing` map to their class,
which the claims never inspect beyond identity, summarised as `obj_t`). -/
def PV.type_of : PV → PT
  | .vnone => .none_t
  | .vstr _ => .str_t
  | .vint _ => .int_t
  | .vbool _ => .bool_t
  | .vmissing => .obj_t
  | .vobj _ _ => .obj_t

/-- Models Python `str(v)` for the default values rendered into help text
(`_format_default_help`, non-string branch). -/
def PV.pyStr : PV → String
  | .vnone => "None"
  | .vmissing => "<MISSING>"
  | .vstr s => s
  | .vint n => toString n
  | .vbool b => if b then "True" else "False"
  | .vobj _ rep => rep

/-- Models Python `repr(v)` for the same values; for strings CPython wraps
the text in single quotes (escaping of quote characters inside the text is
not modelled — no claim depends on it). -/
def PV.pyRepr : PV → String
  | .vstr s => "'" ++ s ++ "'"
  | v => PV.pyStr v

/-- A converter function, identified symbolically:
  * `ctor t`  : the type object `t` itself used as a callable (the entries
    of `BASIC_TYPES` and the class-constructor fallback)
  * `enumC e` : the closure produced by `_make_enum_converter(e)`
  * `custom i`: an opaque converter registered in a `ConverterRegistry`. -/
inductive Conv where
  | ctor (t : PT)
  | enumC (enum_class : PT)
  | custom (id : Nat)
deriving DecidableEq, Repr

/-- The exceptions distinguished by the claims: Python's `KeyError`
(raised by `Enum.__getitem__` on an unknown member name) versus the
library's own `ConversionError` (src/wargs/core/exceptions.py). -/
inductive PyError where
  | keyError (name : String)
  | conversionError (msg : String)
deriving DecidableEq, Repr

/-- Models lookup in the `BASIC_TYPES` dict
(src/wargs/introspection/types.py lines 19-25): each of the five basic
types maps to itself as converter. `none` models `not in BASIC_TYPES`. -/
def BASIC_TYPES_get : PT → Option Conv
  | .str_t => some (.ctor .str_t)
  | .int_t => some (.ctor .int_t)
  | .float_t => some (.ctor .float_t)
  | .bool_t => some (.ctor .bool_t)
  | .path_t => some (.ctor .path_t)
  | _ => none

/-- Models `x in COLLECTION_TYPES` (line 28): only the four bare collection
classes are members of that set. -/
def in_COLLECTION_TYPES : PT → Bool
  | .collT _ .nil => true
  | _ => false

/-- Models `typing.get_origin`: the bare collection class for a subscripted
collection, the `Union`/`Literal` special forms for union and literal
aliases, `None` for plain classes and other objects. -/
def get_origin : PT → Option PT
  | .collT k (.cons _ _) => some (.collT k .nil)
  | .unionT _ => some .unionForm
  | .literalT _ => some .literalForm
  | _ => none

/-- Models `typing.get_args` on the annotations whose arguments the
resolver reads (union and collection aliases). -/
def get_args : PT → PTList
  | .collT _ tys => tys
  | .unionT tys => tys
  | _ => .nil

/-- Models `Union[tuple(args)]` construction: a one-element union collapses
to its single member (CPython `Union[(t,)] is t`). An empty tuple would
raise in CPython, but it is unreachable: `_is_optional_type` builds this
union only from the non-`None` members of an existing union, and no
constructible union annotation has only `NoneType` arguments; the `.nil`
case is totalised to the empty union. -/
def mkUnion : PTList → PT
  | .cons t .nil => t
  | tys => .unionT tys

/-- Models `_is_optional_type` (src/wargs/introspection/types.py lines
31-70). The source has two textually identical branches for
`typing.Union` and for the 3.10 `types.UnionType`; both are the `unionT`
case here. Returns `(is_optional, inner_type)`. -/
def _is_optional_type ( ann : PT) : Bool × PT :=
  match ann with
  | .unionT tys =>
    let non_none_args := tys.filterB PT.is_not_none_type
    if non_none_args.length = 1 ∧ PTList.memB .none_t tys then
      (true, non_none_args.headD .none_t)
    else if PTList.memB .none_t tys then
      (true, mkUnion non_none_args)
    else
      (false, ann)
  | _ => (false, ann)

/-- Models `_is_literal_type` (lines 73-97): a literal alias yields its
constants in declaration order. -/
def _is_literal_type ( ann : PT) : Bool × List PV :=
  match ann with
  | .literalT vals => (true, vals)
  | _ => (false, [])

/-- Models `_is_enum_type` (lines 100-116): true exactly for a class that
is an `Enum` subclass. -/
def _is_enum_type ( ann : PT) : Bool × Option PT :=
  match ann with
  | .classT cid m (some ms) => (true, some (.classT cid m (some ms)))
  | _ => (false, none)

/-- Models `_make_enum_converter` (lines 119-132): the returned closure
captures the enum class and performs `enum_class[s]`. -/
def _make_enum_converter (enum_class : PT) : Conv :=
  .enumC enum_class

/-- Semantics of the closure produced by `_make_enum_converter`:
`enum_class[s]` is `Enum.__getitem__`, a case-sensitive lookup in the
member-name map that raises `KeyError` on a miss. The member found is
identified by its name. -/
def enum_getitem (enum_class : PT) (s : String) : Except PyError String :=
  match enum_class with
  | .classT _ _ (some ms) =>
    if s ∈ ms then .ok s else .error (.keyError s)
  | _ => .error (.keyError s)

/-- Models `[member.name for member in enum_class]`
(src/wargs/builders/arguments.py line 154): iteration yields members in
declaration order. -/
def enum_member_names : PT → List String
  | .classT _ _ (some ms) => ms
  | _ => []

/-- Models `_get_collection_element_type` (lines 135-147): the first
generic argument, or `None` when there is none. -/
def _get_collection_element_type ( ann : PT) : Option PT :=
  match get_args ann with
  | .cons h _ => some h
  | .nil => none

/-- Models `ConverterRegistry` (src/wargs/converters/registry.py): the
`_converters` dict as an association list from type objects to
converters. -/
structure ConverterRegistry where
  _converters : List (PT × Conv)
deriving DecidableEq, Repr

/-- First hit walking the MRO tail (the loop
`for base in type_.__mro__[1:]` of `ConverterRegistry.get`). -/
def mro_lookup (d : List (PT × Conv)) : PTList → Option Conv
  | .nil => none
  | .cons b rest =>
    match d.lookup b with
    | some c => some c
    | none => mro_lookup d rest

/-- Models `ConverterRegistry.get` (registry.py lines 87-107): exact-type
entry first, then — when `check_inheritance` (whose Python default is
`True`) — the first entry found along `type_.__mro__[1:]`. -/
def ConverterRegistry.get (r : ConverterRegistry) (type_ : PT)
    (check_inheritance : Bool) : Option Conv :=
  match r._converters.lookup type_ with
  | some c => some c
  | none =>
    if check_inheritance then mro_lookup r._converters type_.mro_rest
    else none

/-- Models `_get_converter` (types.py lines 150-181): `None`/`NoneType`
get no converter; a supplied registry is consulted first for any type
annotation (with the inheritance-checking default of
`ConverterRegistry.get`); then the `BASIC_TYPES` table; then any class is
its own converter; otherwise no converter. -/
def _get_converter ( ann : PT) (registry : Option ConverterRegistry) :
    Option Conv :=
  if ann = .noneAnn ∨ ann = .none_t then none
  else
    let from_registry : Option Conv :=
      match registry with
      | some r => if ann.isinstance_type then r.get ann true else none
      | none => none
    match from_registry with
    | some c => some c
    | none =>
      match BASIC_TYPES_get ann with
      | some c => some c
      | none => if ann.isinstance_type then some (.ctor ann) else none

/-- Models the `TypeInfo` dataclass (src/wargs/core/config.py lines
28-49) with the same fields and defaults. -/
structure TypeInfo where
  origin : Option PT := none
  args : PTList := .nil
  is_optional : Bool := false
  is_literal : Bool := false
  literal_values : List PV := []
  is_enum : Bool := false
  enum_class : Option PT := none
  converter : Option Conv := none
deriving DecidableEq, Repr

theorem PTList.length_eq_one : (l : PTList) → l.length = 1 →
    ∃ t, l = .cons t .nil
  | .cons t .nil, _ => ⟨t, rfl⟩
  | .nil, h => by simp [PTList.length] at h
  | .cons _ (.cons x r), h => by simp [PTList.length] at h

theorem sizeOf_memB_lt {a : PT} : (l : PTList) → PTList.memB a l = true →
    sizeOf a < sizeOf l
  | .nil, h => by simp [PTList.memB] at h
  | .cons h t, hm => by
    simp only [PTList.memB, Bool.or_eq_true, decide_eq_true_eq] at hm
    rcases hm with rfl | hm
    · simp only [PTList.cons.sizeOf_spec]; omega
    · have := sizeOf_memB_lt t hm
      simp only [PTList.cons.sizeOf_spec]; omega

theorem sizeOf_filterB_le (p : PT → Bool) : (l : PTList) →
    sizeOf (l.filterB p) ≤ sizeOf l
  | .nil => by simp [PTList.filterB]
  | .cons h t => by
    have := sizeOf_filterB_le p t
    by_cases hph : p h = true
    · simp only [PTList.filterB, hph, if_true, PTList.cons.sizeOf_spec]
      omega
    · simp only [Bool.not_eq_true] at hph
      simp only [PTList.filterB, hph, Bool.false_eq_true, if_false,
        PTList.cons.sizeOf_spec]
      omega

theorem sizeOf_filterB_lt {a : PT} (p : PT → Bool) (hp : p a = false) :
    (l : PTList) → PTList.memB a l = true →
    sizeOf (l.filterB p) < sizeOf l
  | .nil, hm => by simp [PTList.memB] at hm
  | .cons h t, hm => by
    simp only [PTList.memB, Bool.or_eq_true, decide_eq_true_eq] at hm
    by_cases hph : p h = true
    · have hm' : PTList.memB a t = true := by
        rcases hm with rfl | hm
        · rw [hp] at hph; cases hph
        · exact hm
      have := sizeOf_filterB_lt p hp t hm'
      simp only [PTList.filterB, hph, if_true, PTList.cons.sizeOf_spec]
      omega
    · have hle := sizeOf_filterB_le p t
      simp only [Bool.not_eq_true] at hph
      simp only [PTList.filterB, hph, Bool.false_eq_true, if_false,
        PTList.cons.sizeOf_spec]
      omega

theorem sizeOf_mkUnion_le : (l : PTList) → sizeOf (mkUnion l) ≤ 1 + sizeOf l
  | .nil => by simp [mkUnion]
  | .cons t .nil => by simp only [mkUnion, PTList.cons.sizeOf_spec,
      PTList.nil.sizeOf_spec]; omega
  | .cons x (.cons y r) => by simp [mkUnion]

/-- The inner type extracted by `_is_optional_type` is structurally smaller
than the union it came from (used for termination of `resolve_type`). -/
theorem sizeOf_isopt_snd_lt ( ann : PT)
    (h : (_is_optional_type ann).1 = true) :
    sizeOf (_is_optional_type ann).2 < sizeOf ann := by
  match ann with
  | .unionT tys =>
    by_cases hmem : PTList.memB .none_t tys = true
    · by_cases hlen : (tys.filterB PT.is_not_none_type).length = 1
      · obtain ⟨t, ht⟩ := PTList.length_eq_one _ hlen
        have h2 : sizeOf (tys.filterB PT.is_not_none_type) ≤ sizeOf tys :=
          sizeOf_filterB_le _ tys
        rw [ht] at h2
        simp only [_is_optional_type, ht, hmem, PTList.length,
          Nat.add_zero, and_true, if_true, PTList.headD]
        simp only [PT.unionT.sizeOf_spec, PTList.cons.sizeOf_spec,
          PTList.nil.sizeOf_spec] at h2 ⊢
        omega
      · have h1 := sizeOf_mkUnion_le (tys.filterB PT.is_not_none_type)
        have h2 := sizeOf_filterB_lt (a := PT.none_t)
          PT.is_not_none_type rfl tys hmem
        simp only [_is_optional_type, hlen, hmem, and_true, and_self,
          false_and, if_false, if_true, Bool.false_eq_true]
        simp only [PT.unionT.sizeOf_spec]
        omega
    · exfalso
      simp only [Bool.not_eq_true] at hmem
      simp only [_is_optional_type, hmem, Bool.false_eq_true, and_false,
        if_false] at h
  | .noneAnn | .none_t | .str_t | .int_t | .float_t | .bool_t | .path_t
  | .purePath_t | .obj_t | .ellipsisT | .unionForm | .literalForm
  | .annotObj =>
    simp [_is_optional_type] at h
  | .classT _ _ _ => simp [_is_optional_type] at h
  | .literalT _ => simp [_is_optional_type] at h
  | .collT _ _ => simp [_is_optional_type] at h

/-- Models `resolve_type` (src/wargs/introspection/types.py lines
184-275), branch for branch: `None` annotation; optional unwrapping (the
source guard `inner_type is not annotation` is the inequality test);
literal; enum; collection (element converter via `_get_converter`); the
`BASIC_TYPES` table; and the final registry/constructor fallback. -/
def resolve_type ( ann : PT) (registry : Option ConverterRegistry) :
    TypeInfo :=
  if ann = .noneAnn then {}
  else
    let iopt := _is_optional_type ann
    if h : iopt.1 = true ∧ ¬(iopt.2 = ann) then
      let inner_info := resolve_type iopt.2 registry
      { origin := inner_info.origin
        args := inner_info.args
        is_optional := true
        is_literal := inner_info.is_literal
        literal_values := inner_info.literal_values
        is_enum := inner_info.is_enum
        enum_class := inner_info.enum_class
        converter := inner_info.converter }
    else
      let ilit := _is_literal_type ann
      if ilit.1 then
        { origin := some (match ilit.2 with
            | [] => .str_t
            | v :: _ => v.type_of)
          is_literal := true
          literal_values := ilit.2
          converter := some (.ctor (match ilit.2 with
            | [] => .str_t
            | v :: _ => v.type_of)) }
      else
        match _is_enum_type ann with
        | (true, some enum_class) =>
          { origin := some enum_class
            is_enum := true
            enum_class := some enum_class
            converter := some (_make_enum_converter enum_class) }
        | _ =>
          let origin := get_origin ann
          let args := get_args ann
          if (match origin with
              | some o => in_COLLECTION_TYPES o
              | none => false) || in_COLLECTION_TYPES ann then
            let actual_origin := match origin with
              | some o => o
              | none => ann
            let element_type :=
              if args ≠ .nil then (_get_collection_element_type ann).getD .noneAnn
              else .str_t
            { origin := some actual_origin
              args := args
              converter := _get_converter element_type registry }
          else
            match BASIC_TYPES_get ann with
            | some c => { origin := some ann, converter := some c }
            | none =>
              { origin := if ann.isinstance_type then some ann else origin
                args := args
                converter := _get_converter ann registry }
termination_by sizeOf ann
decreasing_by
  exact sizeOf_isopt_snd_lt ann h.1

/-- Models `ParameterKind` (src/wargs/core/config.py lines 14-24). -/
inductive ParameterKind where
  | POSITIONAL_ONLY
  | POSITIONAL_OR_KEYWORD
  | VAR_POSITIONAL
  | KEYWORD_ONLY
  | VAR_KEYWORD
deriving DecidableEq, Repr

/-- Models the `ParameterInfo` dataclass (src/wargs/core/config.py): the
`annotation` field is named `ann` here; `default = .vmissing` plays the
role of the `MISSING` sentinel, alongside the `has_default` flag. -/
structure ParameterInfo where
  name : String
  ann : Option PT := none
  type_info : Option TypeInfo := none
  default : PV := .vnone
  has_default : Bool := false
  kind : ParameterKind := .POSITIONAL_OR_KEYWORD
  description : Option String := none
deriving DecidableEq, Repr

/-- The data carried by the `UserWarning` that `_check_type_conflict`
formats (src/wargs/introspection/mro.py lines 71-77): the parameter name,
the two class names and the two conflicting annotations. -/
structure ConflictWarning where
  param_name : String
  child_cls : String
  parent_cls : String
  child_type : PT
  parent_type : PT
deriving DecidableEq, Repr

/-- Models `_check_type_conflict` (mro.py lines 46-77): no warning when
either annotation is `None`; one warning when both are present and
differ. Emission through `warnings.warn` is modelled by returning the
list of warnings. -/
def _check_type_conflict (child_param parent_param : ParameterInfo)
    (child_cls parent_cls : String) : List ConflictWarning :=
  match child_param.ann, parent_param.ann with
  | some child_type, some parent_type =>
    if child_type ≠ parent_type then
      [{ param_name := child_param.name
         child_cls := child_cls
         parent_cls := parent_cls
         child_type := child_type
         parent_type := parent_type }]
    else []
  | _, _ => []

/-- Models the dict comprehension `{p.name: p for p in child_params}` of
`merge_parameters`: dict insertion is last-wins, so lookup finds the last
entry with the given name. -/
def child_by_name_get (child_params : List ParameterInfo) (n : String) :
    Option ParameterInfo :=
  child_params.reverse.find? (fun p => p.name = n)

/-- One step of the second loop of `merge_parameters` (mro.py lines
115-128), acting on the state (merged, seen_names, emitted warnings). -/
def merge_step (child_by_name : String → Option ParameterInfo)
    (child_cls parent_cls : String) (warn_on_conflict : Bool)
    (acc : List ParameterInfo × List String × List ConflictWarning)
    (param : ParameterInfo) :
    List ParameterInfo × List String × List ConflictWarning :=
  let (merged, seen_names, ws) := acc
  if param.name ∈ seen_names then
    let ws' :=
      if warn_on_conflict then
        match child_by_name param.name with
        | some cp => ws ++ _check_type_conflict cp param child_cls parent_cls
        | none => ws
      else ws
    (merged, seen_names, ws')
  else
    (merged ++ [param], seen_names ++ [param.name], ws)

/-- Models `merge_parameters` (mro.py lines 80-130): all child parameters
first (and their names into `seen_names`), then each parent parameter not
already seen is appended; a seen name triggers the conflict check against
the child dict when warnings are enabled. Returns the merged list
together with the warnings emitted. -/
def merge_parameters (child_params parent_params : List ParameterInfo)
    (child_cls parent_cls : String) (warn_on_conflict : Bool) :
    List ParameterInfo × List ConflictWarning :=
  let child_by_name := child_by_name_get child_params
  let res := parent_params.foldl
    (merge_step child_by_name child_cls parent_cls warn_on_conflict)
    (child_params, child_params.map (fun p => p.name), [])
  (res.1, res.2.2)

/-- One class of a linearized ancestor chain, with the parameter list its
own `__init__` contributes (the result of `get_init_parameters`; `[]` when
the class defines no own `__init__`). -/
structure PyClassDef where
  cname : String
  params : List ParameterInfo
deriving DecidableEq, Repr

/-- One step of the loop of `traverse_mro` (mro.py lines 161-174), acting
on the state (result, seen class names, emitted warnings). -/
def traverse_step (child_cls : String) (warn_on_conflict : Bool)
    (acc : List ParameterInfo × List String × List ConflictWarning)
    (parent : PyClassDef) :
    List ParameterInfo × List String × List ConflictWarning :=
  let (result, seen_classes, ws) := acc
  if parent.cname ∈ seen_classes then acc
  else
    let seen' := seen_classes ++ [parent.cname]
    if parent.params ≠ [] then
      let m := merge_parameters result parent.params child_cls parent.cname
        warn_on_conflict
      (m.1, seen', ws ++ m.2)
    else (result, seen', ws)

/-- Models `traverse_mro` (mro.py lines 133-176). The Python function
receives a class and computes `[c for c in cls.__mro__ if c is not
object]` before extracting each class's own `__init__` parameters; here
that linearized chain (root excluded) with the per-class extraction
results is the input. The most-derived class is always passed as the
child class of every merge. -/
def traverse_mro (mro : List PyClassDef) (warn_on_conflict : Bool) :
    List ParameterInfo × List ConflictWarning :=
  match mro with
  | [] => ([], [])
  | cls0 :: rest =>
    let r := rest.foldl (traverse_step cls0.cname warn_on_conflict)
      (cls0.params, [cls0.cname], [])
    (r.1, r.2.2)

/-- Models the `Arg` dataclass (src/wargs/core/arg.py): explicit per-
argument override metadata. -/
structure Arg where
  short : Option String := none
  long : Option String := none
  help : Option String := none
  metavar : Option String := none
  choices : Option (List PV) := none
  action : Option String := none
  nargs : Option (Sum String Nat) := none
  const : PV := .vnone
  default : PV := .vnone
  required : Option Bool := none
  dest : Option String := none
  group : Option String := none
  mutually_exclusive : Option String := none
  positional : Bool := false
  hidden : Bool := false
  skip : Bool := false
  envvar : Option String := none
deriving DecidableEq, Repr

/-- Models the `ArgumentConfig` dataclass (src/wargs/core/config.py):
the argparse configuration derived for one parameter. `nargs` holds
either a string (e.g. `"*"`) or an int, as in the source. -/
structure ArgumentConfig where
  name : String
  flags : List String := []
  type : Option Conv := none
  default : PV := .vnone
  required : Bool := false
  help : Option String := none
  choices : Option (List PV) := none
  action : Option String := none
  nargs : Option (Sum String Nat) := none
  metavar : Option String := none
  dest : Option String := none
  group : Option String := none
  mutually_exclusive : Option String := none
  positional : Bool := false
  hidden : Bool := false
  skip : Bool := false
deriving DecidableEq, Repr

/-- Python truthiness of an optional string (`if x:`): `None` and the
empty string are falsy. -/
def optStrTruthy : Option String → Bool
  | some s => s ≠ ""
  | none => false

/-- Models `_param_to_flag` (src/wargs/builders/arguments.py lines
47-64): snake_case to a kebab-case `--` flag, with an optional callable-
name pre-fix. -/
def _param_to_flag (name : String) (pre : Option String) : String :=
  let flag_name := name.replace "_" "-"
  match pre with
  | some p =>
    if p ≠ "" then "--" ++ p.replace "_" "-" ++ "-" ++ flag_name
    else "--" ++ flag_name
  | none => "--" ++ flag_name

/-- Models `_get_type_action` (arguments.py lines 67-84): `bool` origin
becomes the presence-flag action with no converter; otherwise the
resolved converter is used. -/
def _get_type_action (type_info : Option TypeInfo) :
    Option String × Option Conv :=
  match type_info with
  | none => (none, some (.ctor .str_t))
  | some t =>
    if t.origin = some .bool_t then (some "store_true", none)
    else (none, t.converter)

/-- Models `_get_nargs` (arguments.py lines 87-115): `"*"` for list-like
collections; for tuples the argument count unless the last argument is
`...`; `"*"` for a `*args` parameter. -/
def _get_nargs (type_info : Option TypeInfo) (param_kind : ParameterKind) :
    Option (Sum String Nat) :=
  match type_info with
  | none => none
  | some t =>
    if t.origin = some (.collT .list .nil) ∨ t.origin = some (.collT .set .nil)
        ∨ t.origin = some (.collT .frozenset .nil) then
      some (.inl "*")
    else if t.origin = some (.collT .tuple .nil) then
      if t.args ≠ .nil ∧ t.args.lastD .ellipsisT ≠ .ellipsisT then
        some (.inr t.args.length)
      else some (.inl "*")
    else if param_kind = .VAR_POSITIONAL then some (.inl "*")
    else none

/-- Models `_get_choices` (arguments.py lines 118-138): literal values
become choices; enums deliberately do not. -/
def _get_choices (type_info : Option TypeInfo) : Option (List PV) :=
  match type_info with
  | none => none
  | some t =>
    if t.is_literal ∧ t.literal_values ≠ [] then some t.literal_values
    else none

/-- Models `_get_enum_metavar` (arguments.py lines 141-157): a brace-
delimited comma-joined list of the member names, in declaration order. -/
def _get_enum_metavar (type_info : Option TypeInfo) : Option String :=
  match type_info with
  | none => none
  | some t =>
    if t.is_enum then
      match t.enum_class with
      | some e =>
        some ("\x7b" ++ String.intercalate "," (enum_member_names e) ++ "\x7d")
      | none => none
    else none

/-- Models `_format_default_help` (arguments.py lines 160-179): empty for
a missing or `None` default; otherwise ` (default: ...)` using `repr` for
strings and `str` for everything else. -/
def _format_default_help (default : PV) (has_default : Bool) : String :=
  if !has_default ∨ default = .vmissing then ""
  else if default = .vnone then ""
  else match default with
    | .vstr s => " (default: " ++ (PV.vstr s).pyRepr ++ ")"
    | d => " (default: " ++ d.pyStr ++ ")"

/-- Python substring containment (`sub in text`). -/
def str_contains (text sub : String) : Bool :=
  decide (List.IsInfix sub.data text.data)

/-- Models `build_argument_config` (arguments.py lines 182-303), decision
for decision, with Python truthiness (`if arg_metadata and ...:`)
rendered through `optStrTruthy` for string fields and explicit
`is not None` tests for the optional fields the source tests that way. -/
def build_argument_config (param : ParameterInfo) (arg_metadata : Option Arg)
    (pre : Option String) : ArgumentConfig :=
  if (match arg_metadata with | some m => m.skip | none => false) then
    { name := param.name, skip := true }
  else
    let is_positional : Bool :=
      (match arg_metadata with | some m => m.positional | none => false)
      || param.kind = .POSITIONAL_ONLY
    let flags : List String :=
      if is_positional then []
      else
        let long_flag :=
          match arg_metadata with
          | some m => if optStrTruthy m.long then m.long.getD "" else
              _param_to_flag param.name pre
          | none => _param_to_flag param.name pre
        match arg_metadata with
        | some m =>
          if optStrTruthy m.short then [m.short.getD "", long_flag]
          else [long_flag]
        | none => [long_flag]
    let ta := _get_type_action param.type_info
    let action₀ := ta.1
    let type_converter₀ := ta.2
    let action :=
      match arg_metadata with
      | some m => if optStrTruthy m.action then m.action else action₀
      | none => action₀
    let type_converter :=
      match arg_metadata with
      | some m =>
        if optStrTruthy m.action then
          if m.action = some "store_true" ∨ m.action = some "store_false"
              ∨ m.action = some "store_const" ∨ m.action = some "count" then
            none
          else type_converter₀
        else type_converter₀
      | none => type_converter₀
    let nargs₀ := _get_nargs param.type_info param.kind
    let nargs :=
      match arg_metadata with
      | some m => if m.nargs.isSome then m.nargs else nargs₀
      | none => nargs₀
    let choices₀ := _get_choices param.type_info
    let choices :=
      match arg_metadata with
      | some m => if m.choices.isSome then m.choices else choices₀
      | none => choices₀
    let required₀ : Bool := !param.has_default && !is_positional
    let required :=
      match arg_metadata with
      | some m =>
        match m.required with
        | some r => r
        | none => required₀
      | none => required₀
    let default₀ := if param.has_default then param.default else PV.vnone
    let default :=
      match arg_metadata with
      | some m => if m.default ≠ PV.vnone then m.default else default₀
      | none => default₀
    let help_text₀ := (param.description).getD ""
    let help_text₁ :=
      match arg_metadata with
      | some m => if optStrTruthy m.help then m.help.getD "" else help_text₀
      | none => help_text₀
    let help_text :=
      if help_text₁ ≠ "" ∧ param.has_default then
        let default_suffix := _format_default_help param.default param.has_default
        if default_suffix ≠ "" ∧ ¬(str_contains help_text₁ default_suffix) then
          help_text₁ ++ default_suffix
        else help_text₁
      else help_text₁
    let metavar :=
      match arg_metadata with
      | some m =>
        if optStrTruthy m.metavar then m.metavar
        else if param.type_info.isSome then _get_enum_metavar param.type_info
        else none
      | none =>
        if param.type_info.isSome then _get_enum_metavar param.type_info
        else none
    let dest₀ := if optStrTruthy pre then some param.name else none
    let dest :=
      match arg_metadata with
      | some m => if optStrTruthy m.dest then m.dest else dest₀
      | none => dest₀
    { name := param.name
      flags := flags
      type := type_converter
      default := default
      required := required
      help := if help_text ≠ "" then some help_text else none
      choices := choices
      action := action
      nargs := nargs
      metavar := metavar
      dest := dest
      group := match arg_metadata with | some m => m.group | none => none
      mutually_exclusive :=
        match arg_metadata with | some m => m.mutually_exclusive | none => none
      positional := is_positional
      hidden := match arg_metadata with | some m => m.hidden | none => false
      skip := false }

theorem memB_filterB_imp {a : PT} {p : PT → Bool} : (l : PTList) →
    PTList.memB a (l.filterB p) = true → PTList.memB a l = true
  | .nil, h => by simp only [PTList.filterB] at h; exact h
  | .cons h t, hm => by
    by_cases hph : p h = true
    · simp only [PTList.filterB, hph, if_true] at hm
      simp only [PTList.memB, Bool.or_eq_true, decide_eq_true_eq] at hm ⊢
      rcases hm with rfl | hm
      · left; rfl
      · right; exact memB_filterB_imp t hm
    · simp only [Bool.not_eq_true] at hph
      simp only [PTList.filterB, hph, Bool.false_eq_true, if_false] at hm
      simp only [PTList.memB, Bool.or_eq_true]
      right; exact memB_filterB_imp t hm

theorem memB_filterB_self {a : PT} {p : PT → Bool} (hp : p a = false) :
    (l : PTList) → PTList.memB a (l.filterB p) = false
  | .nil => by simp [PTList.filterB, PTList.memB]
  | .cons h t => by
    by_cases hph : p h = true
    · have hne : ¬(a = h) := fun e => by rw [e, hph] at hp; cases hp
      simp only [PTList.filterB, hph, if_true, PTList.memB, Bool.or_eq_false_iff,
        decide_eq_false_iff_not]
      exact ⟨hne, memB_filterB_self hp t⟩
    · simp only [Bool.not_eq_true] at hph
      simp only [PTList.filterB, hph, Bool.false_eq_true, if_false]
      exact memB_filterB_self hp t

/-- When a union's arguments contain `NoneType`, `_is_optional_type`
reports optional with the (collapsed) union of the non-`None` arguments,
in both source branches. -/
theorem isopt_of_mem (tys : PTList) (hmem : PTList.memB .none_t tys = true) :
    _is_optional_type (.unionT tys) =
      (true, mkUnion (tys.filterB PT.is_not_none_type)) := by
  by_cases hlen : (tys.filterB PT.is_not_none_type).length = 1
  · obtain ⟨t, ht⟩ := PTList.length_eq_one _ hlen
    simp only [_is_optional_type, ht, hmem, PTList.length, Nat.add_zero,
      and_true, if_true, PTList.headD, mkUnion]
  · simp only [_is_optional_type, hlen, hmem, and_true, false_and,
    if_false, if_true, Bool.false_eq_true]

/-- The collapsed non-`None` rest of a union is never the union itself. -/
theorem mkUnion_filter_ne (tys : PTList)
    (hmem : PTList.memB .none_t tys = true) :
    mkUnion (tys.filterB PT.is_not_none_type) ≠ .unionT tys := by
  match hft : tys.filterB PT.is_not_none_type with
  | .nil =>
    intro h
    simp only [mkUnion] at h
    have : PTList.nil = tys := (PT.unionT.injEq _ _).mp h
    rw [← this] at hmem
    simp [PTList.memB] at hmem
  | .cons t .nil =>
    intro h
    simp only [mkUnion] at h
    have hmemt : PTList.memB t tys = true := by
      have : PTList.memB t (tys.filterB PT.is_not_none_type) = true := by
        rw [hft]; simp [PTList.memB]
      exact memB_filterB_imp tys this
    have hlt := sizeOf_memB_lt tys hmemt
    rw [h] at hlt
    simp only [PT.unionT.sizeOf_spec] at hlt
    omega
  | .cons a (.cons b r) =>
    intro h
    simp only [mkUnion] at h
    have : PTList.cons a (PTList.cons b r) = tys := (PT.unionT.injEq _ _).mp h
    have hnone : PTList.memB .none_t (tys.filterB PT.is_not_none_type) = false :=
      memB_filterB_self rfl tys
    rw [hft, this] at hnone
    rw [hmem] at hnone
    cases hnone

/-- Branch lemma: `resolve_type` on the `None` annotation. -/
theorem resolve_type_noneAnn (registry : Option ConverterRegistry) :
    resolve_type .noneAnn registry = {} := by
  rw [resolve_type]
  simp

/-- Branch lemma: `resolve_type` on a union containing `NoneType` returns
the recursive resolution of the remaining union with `is_optional` set. -/
theorem resolve_type_optional (tys : PTList) (registry : Option ConverterRegistry)
    (hmem : PTList.memB .none_t tys = true) :
    resolve_type (.unionT tys) registry =
      { resolve_type (mkUnion (tys.filterB PT.is_not_none_type)) registry with
        is_optional := true } := by
  rw [resolve_type]
  have h1 : (PT.unionT tys = PT.noneAnn) = False := by simp
  rw [isopt_of_mem tys hmem]
  simp only [h1, if_false]
  rw [dif_pos (And.intro (by trivial) (mkUnion_filter_ne tys hmem))]

/-- Branch lemma: `resolve_type` on a `Literal` annotation. -/
theorem resolve_type_literal (vals : List PV)
    (registry : Option ConverterRegistry) :
    resolve_type (.literalT vals) registry =
      { origin := some (match vals with | [] => .str_t | v :: _ => v.type_of)
        is_literal := true
        literal_values := vals
        converter := some (.ctor (match vals with
          | [] => .str_t
          | v :: _ => v.type_of)) } := by
  rw [resolve_type]
  simp [_is_optional_type, _is_literal_type]

/-- Branch lemma: `resolve_type` on an enum class. -/
theorem resolve_type_enum (cid : Nat) (m : PTList) (ms : List String)
    (registry : Option ConverterRegistry) :
    resolve_type (.classT cid m (some ms)) registry =
      { origin := some (.classT cid m (some ms))
        is_enum := true
        enum_class := some (.classT cid m (some ms))
        converter := some (_make_enum_converter (.classT cid m (some ms))) } := by
  rw [resolve_type]
  simp [_is_optional_type, _is_literal_type, _is_enum_type]

/-- Branch lemma: `resolve_type` on a subscripted collection annotation:
the element converter comes from `_get_converter` on the first argument. -/
theorem resolve_type_coll_cons (k : CollKind) (t : PT) (rest : PTList)
    (registry : Option ConverterRegistry) :
    resolve_type (.collT k (.cons t rest)) registry =
      { origin := some (.collT k .nil)
        args := .cons t rest
        converter := _get_converter t registry } := by
  rw [resolve_type]
  simp [_is_optional_type, _is_literal_type, _is_enum_type, get_origin,
    get_args, in_COLLECTION_TYPES, _get_collection_element_type]

/-- Branch lemma: `resolve_type` on a bare collection class: the element
converter defaults to the string converter. -/
theorem resolve_type_coll_bare (k : CollKind)
    (registry : Option ConverterRegistry) :
    resolve_type (.collT k .nil) registry =
      { origin := some (.collT k .nil)
        args := .nil
        converter := _get_converter .str_t registry } := by
  rw [resolve_type]
  simp [_is_optional_type, _is_literal_type, _is_enum_type, get_origin,
    get_args, in_COLLECTION_TYPES, _get_collection_element_type]

/-- Branch lemma: `resolve_type` on each basic type ignores the registry
and uses the `BASIC_TYPES` entry. -/
theorem resolve_type_basic (b : PT) (c : Conv)
    (registry : Option ConverterRegistry)
    (hb : BASIC_TYPES_get b = some c) :
    resolve_type b registry = { origin := some b, converter := some c } := by
  match b with
  | .str_t =>
    rw [resolve_type]
    simp only [BASIC_TYPES_get, Option.some.injEq] at hb
    subst hb
    simp [_is_optional_type, _is_literal_type, _is_enum_type, get_origin,
      get_args, in_COLLECTION_TYPES, BASIC_TYPES_get]
  | .int_t =>
    rw [resolve_type]
    simp only [BASIC_TYPES_get, Option.some.injEq] at hb
    subst hb
    simp [_is_optional_type, _is_literal_type, _is_enum_type, get_origin,
      get_args, in_COLLECTION_TYPES, BASIC_TYPES_get]
  | .float_t =>
    rw [resolve_type]
    simp only [BASIC_TYPES_get, Option.some.injEq] at hb
    subst hb
    simp [_is_optional_type, _is_literal_type, _is_enum_type, get_origin,
      get_args, in_COLLECTION_TYPES, BASIC_TYPES_get]
  | .bool_t =>
    rw [resolve_type]
    simp only [BASIC_TYPES_get, Option.some.injEq] at hb
    subst hb
    simp [_is_optional_type, _is_literal_type, _is_enum_type, get_origin,
      get_args, in_COLLECTION_TYPES, BASIC_TYPES_get]
  | .path_t =>
    rw [resolve_type]
    simp only [BASIC_TYPES_get, Option.some.injEq] at hb
    subst hb
    simp [_is_optional_type, _is_literal_type, _is_enum_type, get_origin,
      get_args, in_COLLECTION_TYPES, BASIC_TYPES_get]
  | .noneAnn | .none_t | .purePath_t | .obj_t | .ellipsisT | .unionForm
  | .literalForm | .annotObj =>
    simp [BASIC_TYPES_get] at hb
  | .classT _ _ _ => simp [BASIC_TYPES_get] at hb
  | .unionT _ => simp [BASIC_TYPES_get] at hb
  | .literalT _ => simp [BASIC_TYPES_get] at hb
  | .collT _ _ => simp [BASIC_TYPES_get] at hb

/-- Branch lemma: `resolve_type` on a non-enum class reaches the final
fallback, whose converter is `_get_converter`. -/
theorem resolve_type_class (cid : Nat) (m : PTList)
    (registry : Option ConverterRegistry) :
    resolve_type (.classT cid m none) registry =
      { origin := some (.classT cid m none)
        args := .nil
        converter := _get_converter (.classT cid m none) registry } := by
  rw [resolve_type]
  simp [_is_optional_type, _is_literal_type, _is_enum_type, get_origin,
    get_args, in_COLLECTION_TYPES, BASIC_TYPES_get, PT.isinstance_type]

/-- `_get_converter` yields nothing for a non-type annotation that is not
in the basic table, whatever the registry. -/
theorem _get_converter_not_type ( ann : PT)
    (registry : Option ConverterRegistry)
    (h1 : ann.isinstance_type = false) (h2 : ann ≠ .noneAnn)
    (h3 : ann ≠ .none_t) (h4 : BASIC_TYPES_get ann = none) :
    _get_converter ann registry = none := by
  match registry with
  | none => simp [_get_converter, h1, h2, h3, h4]
  | some r => simp [_get_converter, h1, h2, h3, h4]

/-- A registry hit takes priority inside `_get_converter` for any type
annotation. -/
theorem _get_converter_registry_hit ( ann : PT) (r : ConverterRegistry)
    (c : Conv) (h1 : ann.isinstance_type = true)
    (h2 : ann ≠ .noneAnn) (h3 : ann ≠ .none_t)
    (hr : r.get ann true = some c) :
    _get_converter ann (some r) = some c := by
  simp [_get_converter, h1, h2, h3, hr]

/-- Annotations on which every classification step of `resolve_type`
falls through and which are not type objects: the resolver can do nothing
with them. (A union none of whose arguments is `NoneType` is the
spec-noted unclassified-union case.) -/
def unclassified : PT → Bool
  | .annotObj => true
  | .unionForm => true
  | .literalForm => true
  | .ellipsisT => true
  | .unionT tys => !(PTList.memB .none_t tys)
  | _ => false

/-- First-occurrence-by-name de-duplication relative to a set of already
seen names. With `seen = []` this expresses the spec's merge result: the
first (most-derived) declaration of each name survives, in encounter
order. -/
def dedupByName (seen : List String) : List ParameterInfo → List ParameterInfo
  | [] => []
  | p :: rest =>
    if p.name ∈ seen then dedupByName seen rest
    else p :: dedupByName (seen ++ [p.name]) rest

/-- Follows the spec's words for the MRO merge (the refinement target of
the merge claims): concatenate every class's own parameters in
chain order — most-derived first — and keep only the first occurrence of
each name. -/
def merged_chain_spec (mro : List PyClassDef) : List ParameterInfo :=
  dedupByName [] ((mro.map (fun c => c.params)).flatten)

/-- Follows the spec's words for conflict warnings: one warning per
ancestor parameter whose name collides with a derived parameter when both
declare an annotation and the annotations differ; the warning carries
both class names and both types. -/
def conflict_warnings_spec (child_params parent_params : List ParameterInfo)
    (child_cls parent_cls : String) : List ConflictWarning :=
  parent_params.filterMap (fun q =>
    match child_params.find? (fun c => c.name = q.name) with
    | some cp =>
      match cp.ann, q.ann with
      | some ct, some pt =>
        if ct ≠ pt then
          some { param_name := q.name
                 child_cls := child_cls
                 parent_cls := parent_cls
                 child_type := ct
                 parent_type := pt }
        else none
      | _, _ => none
    | none => none)

/-- Follows the spec's words for help-text composition (the refinement
target of the help claim): start from the docstring description, replace
it wholly with a present override help text, then — when a default exists
and the text is non-empty — append the default suffix unless it is
already present; a `None` default produces no suffix. -/
def help_text_spec (param : ParameterInfo) (arg_metadata : Option Arg) :
    Option String :=
  let base := (param.description).getD ""
  let base :=
    match arg_metadata with
    | some m => if optStrTruthy m.help then m.help.getD "" else base
    | none => base
  let text :=
    if param.has_default ∧ base ≠ "" then
      let sfx :=
        if param.default = PV.vnone then ""
        else match param.default with
          | PV.vstr s => " (default: " ++ (PV.vstr s).pyRepr ++ ")"
          | d => " (default: " ++ d.pyStr ++ ")"
      if sfx ≠ "" ∧ ¬(str_contains base sfx = true) then base ++ sfx else base
    else base
  if text ≠ "" then some text else none

/-- Fallback lemma: a union with no `NoneType` member is not specially
classified; it keeps its arguments, gets the `Union` form as origin, and
no converter. -/
theorem resolve_type_union_no_none (tys : PTList)
    (registry : Option ConverterRegistry)
    (hmem : PTList.memB .none_t tys = false) :
    resolve_type (.unionT tys) registry =
      { origin := some .unionForm, args := tys, converter := none } := by
  rw [resolve_type]
  rw [_get_converter_not_type (.unionT tys) registry rfl (by simp) (by simp) rfl]
  simp [_is_optional_type, hmem, _is_literal_type, _is_enum_type, get_origin,
    get_args, in_COLLECTION_TYPES, BASIC_TYPES_get, PT.isinstance_type]

/-- C3: for every annotation that is a union containing the null type plus
at least one non-null alternative (one alternative or several),
`resolve_type` returns the recursive resolution of the union of the
remaining non-null alternatives with `is_optional` set to true and every
other field — origin, args, literal flag and values, enum flag and class,
and converter — copied from that inner resolution. -/
theorem C3_optional_unwrap_copies_inner (tys : PTList)
    (registry : Option ConverterRegistry)
    (hmem : PTList.memB .none_t tys = true)
    (hrest : tys.filterB PT.is_not_none_type ≠ .nil) :
    resolve_type (.unionT tys) registry =
      { resolve_type (mkUnion (tys.filterB PT.is_not_none_type)) registry with
        is_optional := true } :=
  resolve_type_optional tys registry hmem

/-- Witness for C3 at the concrete annotation `Optional[int]`
(`Union[int, None]`). -/
theorem C3_optional_unwrap_copies_inner_witness :
    resolve_type (.unionT (.cons .int_t (.cons .none_t .nil))) none =
      { resolve_type (mkUnion ((PTList.cons .int_t
          (.cons .none_t .nil)).filterB PT.is_not_none_type)) none with
        is_optional := true } :=
  C3_optional_unwrap_copies_inner _ none (by decide) (by decide)

/-- C5: `resolve_type` is a total function into `TypeInfo` (the Lean
definition is accepted by the termination checker and has no error
outcome, mirroring that every partial operation in the source is
guarded), the `None` annotation resolves to the empty `TypeInfo`, and an
annotation the resolver cannot classify yields a `TypeInfo` whose
converter is `none` rather than an error. -/
theorem C5_resolution_never_raises ( ann : PT)
    (registry : Option ConverterRegistry)
    (h : unclassified ann = true) :
    (resolve_type ann registry).converter = none ∧
      resolve_type .noneAnn registry = {} := by
  refine ⟨?_, resolve_type_noneAnn registry⟩
  match ann with
  | .annotObj =>
    rw [resolve_type]
    rw [_get_converter_not_type .annotObj registry rfl (by simp) (by simp) rfl]
    simp [_is_optional_type, _is_literal_type, _is_enum_type, get_origin,
      get_args, in_COLLECTION_TYPES, BASIC_TYPES_get]
  | .unionForm =>
    rw [resolve_type]
    rw [_get_converter_not_type .unionForm registry rfl (by simp) (by simp) rfl]
    simp [_is_optional_type, _is_literal_type, _is_enum_type, get_origin,
      get_args, in_COLLECTION_TYPES, BASIC_TYPES_get]
  | .literalForm =>
    rw [resolve_type]
    rw [_get_converter_not_type .literalForm registry rfl (by simp) (by simp) rfl]
    simp [_is_optional_type, _is_literal_type, _is_enum_type, get_origin,
      get_args, in_COLLECTION_TYPES, BASIC_TYPES_get]
  | .ellipsisT =>
    rw [resolve_type]
    rw [_get_converter_not_type .ellipsisT registry rfl (by simp) (by simp) rfl]
    simp [_is_optional_type, _is_literal_type, _is_enum_type, get_origin,
      get_args, in_COLLECTION_TYPES, BASIC_TYPES_get]
  | .unionT tys =>
    have hmem : PTList.memB .none_t tys = false := by
      simp only [unclassified, Bool.not_eq_true'] at h
      exact h
    rw [resolve_type_union_no_none tys registry hmem]
  | .noneAnn | .none_t | .str_t | .int_t | .float_t | .bool_t | .path_t
  | .purePath_t | .obj_t => simp [unclassified] at h
  | .classT _ _ _ => simp [unclassified] at h
  | .literalT _ => simp [unclassified] at h
  | .collT _ _ => simp [unclassified] at h

/-- Witness for C5 at a concrete unresolvable annotation (a forward
reference object). -/
theorem C5_resolution_never_raises_witness :
    (resolve_type .annotObj none).converter = none ∧
      resolve_type .noneAnn none = {} :=
  C5_resolution_never_raises .annotObj none (by decide)

/-- C6: for every enum class, type resolution produces the by-name
converter of `_make_enum_converter`; that converter maps a string that is
a member name (case-sensitive, exact) to that member, and any other
string to a `KeyError`-style lookup failure — never to the library's
conversion-error type. -/
theorem C6_enum_converter_by_name (cid : Nat) (m : PTList)
    (ms : List String) (registry : Option ConverterRegistry) (s : String) :
    (resolve_type (.classT cid m (some ms)) registry).converter =
      some (.enumC (.classT cid m (some ms)))
    ∧ (s ∈ ms → enum_getitem (.classT cid m (some ms)) s = .ok s)
    ∧ (s ∉ ms →
        enum_getitem (.classT cid m (some ms)) s = .error (.keyError s))
    ∧ ∀ msg, enum_getitem (.classT cid m (some ms)) s ≠
        .error (.conversionError msg) := by
  refine ⟨?_, ?_, ?_, ?_⟩
  · rw [resolve_type_enum]
    rfl
  · intro hs; simp [enum_getitem, hs]
  · intro hs; simp [enum_getitem, hs]
  · intro msg
    by_cases hs : s ∈ ms
    · simp [enum_getitem, hs]
    · simp [enum_getitem, hs]

/-- Witness for C6 at a two-member enum: the converter resolves, a member
name converts, a non-member name fails with a lookup error. -/
theorem C6_enum_converter_by_name_witness :
    enum_getitem (.classT 0 .nil (some ["RED", "GREEN"])) "red" =
      .error (.keyError "red") :=
  (C6_enum_converter_by_name 0 .nil ["RED", "GREEN"] none "red").2.2.1
    (by decide)

/-- C1 counterexample: with a registry holding an entry for `int`,
resolving the collection annotation `list[int]` yields the registry
converter for the element — not `int`'s own constructor as the claim
states — even though `int` is one of the five basic types. -/
theorem C1_registry_counterexample :
    (resolve_type (.collT .list (.cons .int_t .nil))
        (some { _converters := [(.int_t, .custom 0)] })).converter =
      some (.custom 0)
    ∧ (some (Conv.custom 0) ≠ some (Conv.ctor .int_t))
    ∧ BASIC_TYPES_get .int_t = some (.ctor .int_t) := by
  refine ⟨?_, by decide, by decide⟩
  rw [resolve_type_coll_cons]
  decide

/-- C1 amended: top-level basic-type annotations always resolve to their
own `BASIC_TYPES` constructor regardless of the registry; but the element
converter of a collection annotation consults the registry first, so a
registry hit for the element type (basic or not) overrides the element's
own converter; and for an otherwise-unclassified class the registry
lookup follows the class's MRO, so a supertype entry applies when no
exact entry exists. -/
theorem C1_registry_amended (registry : Option ConverterRegistry) :
    (∀ (b : PT) (c : Conv), BASIC_TYPES_get b = some c →
      resolve_type b registry = { origin := some b, converter := some c })
    ∧ (∀ (r : ConverterRegistry) (k : CollKind) (t : PT) (rest : PTList)
        (c : Conv), t.isinstance_type = true → t ≠ .noneAnn →
        t ≠ .none_t → r.get t true = some c →
        (resolve_type (.collT k (.cons t rest)) (some r)).converter = some c)
    ∧ (∀ (r : ConverterRegistry) (cid : Nat) (mroL : PTList) (c : Conv),
        r._converters.lookup (.classT cid mroL none) = none →
        mro_lookup r._converters mroL = some c →
        (resolve_type (.classT cid mroL none) (some r)).converter = some c) := by
  refine ⟨?_, ?_, ?_⟩
  · intro b c hb
    exact resolve_type_basic b c registry hb
  · intro r k t rest c h1 h2 h3 hr
    rw [resolve_type_coll_cons]
    exact _get_converter_registry_hit t r c h1 h2 h3 hr
  · intro r cid mroL c hex hmro
    rw [resolve_type_class]
    have hget : r.get (.classT cid mroL none) true = some c := by
      simp only [ConverterRegistry.get, hex, if_true, PT.mro_rest]
      exact hmro
    exact _get_converter_registry_hit (.classT cid mroL none) r c rfl
      (by simp) (by simp) hget

/-- Witness for C1 amended, exercising the supertype branch: a class with
a lone ancestor, a registry entry only for the ancestor, an inherited
converter. -/
theorem C1_registry_amended_witness :
    (resolve_type (.classT 1 (.cons (.classT 2 .nil none) .nil) none)
        (some { _converters := [(.classT 2 .nil none, .custom 5)] })).converter =
      some (.custom 5) :=
  (C1_registry_amended
      (some { _converters := [(.classT 2 .nil none, .custom 5)] })).2.2
    { _converters := [(.classT 2 .nil none, .custom 5)] } 1
    (.cons (.classT 2 .nil none) .nil) (.custom 5) (by decide) (by decide)

/-- C7: a parameter whose resolved type is an enum class, with no explicit
override of choices or metavar (and not skipped), builds an argument spec
with `choices = none` and metavar equal to the brace-delimited
comma-joined member names in declaration order. -/
theorem C7_enum_choices_metavar (cid : Nat) (m : PTList) (ms : List String)
    (registry : Option ConverterRegistry) (p : ParameterInfo)
    (am : Option Arg) (pre : Option String)
    (hti : p.type_info = some (resolve_type (.classT cid m (some ms)) registry))
    (ham : am = none ∨ ∃ mm, am = some mm ∧ mm.choices = none ∧
      mm.metavar = none ∧ mm.skip = false) :
    (build_argument_config p am pre).choices = none ∧
    (build_argument_config p am pre).metavar =
      some ("\x7b" ++ String.intercalate "," ms ++ "\x7d") := by
  rw [resolve_type_enum] at hti
  rcases ham with rfl | ⟨mm, rfl, hc, hm, hs⟩
  · constructor
    · simp [build_argument_config, _get_choices, hti]
    · simp [build_argument_config, _get_enum_metavar, hti, enum_member_names]
  · constructor
    · simp [build_argument_config, _get_choices, hti, hc, hs]
    · simp [build_argument_config, _get_enum_metavar, hti, hm, hs,
        optStrTruthy, enum_member_names]

/-- Witness for C7 at a concrete three-member enum parameter. -/
theorem C7_enum_choices_metavar_witness :
    (build_argument_config
        { name := "color",
          type_info := some (resolve_type
            (.classT 0 .nil (some ["RED", "GREEN", "BLUE"])) none) }
        none none).choices = none ∧
    (build_argument_config
        { name := "color",
          type_info := some (resolve_type
            (.classT 0 .nil (some ["RED", "GREEN", "BLUE"])) none) }
        none none).metavar =
      some ("\x7b" ++ String.intercalate "," ["RED", "GREEN", "BLUE"] ++ "\x7d") :=
  C7_enum_choices_metavar 0 .nil ["RED", "GREEN", "BLUE"] none _ none none
    rfl (Or.inl rfl)

/-- C8: a `Literal` annotation with constants resolves to those constants
in declaration order, with origin and converter the type of the first
constant (string for an empty set); and the spec built from such a
parameter without a choices override has those same constants, in the
same order, as its choices. -/
theorem C8_literal_choices (vals : List PV)
    (registry : Option ConverterRegistry) (p : ParameterInfo)
    (am : Option Arg) (pre : Option String)
    (hvals : vals ≠ [])
    (hti : p.type_info = some (resolve_type (.literalT vals) registry))
    (ham : am = none ∨ ∃ mm, am = some mm ∧ mm.choices = none ∧
      mm.skip = false) :
    resolve_type (.literalT vals) registry =
      { origin := some ((vals.headD (PV.vstr "")).type_of)
        is_literal := true
        literal_values := vals
        converter := some (.ctor ((vals.headD (PV.vstr "")).type_of)) }
    ∧ (build_argument_config p am pre).choices = some vals := by
  have hfirst : resolve_type (.literalT vals) registry =
      { origin := some ((vals.headD (PV.vstr "")).type_of)
        is_literal := true
        literal_values := vals
        converter := some (.ctor ((vals.headD (PV.vstr "")).type_of)) } := by
    match vals with
    | [] =>
      rw [resolve_type_literal]
      rfl
    | v :: t =>
      rw [resolve_type_literal]
      rfl
  refine ⟨hfirst, ?_⟩
  rw [hfirst] at hti
  rcases ham with rfl | ⟨mm, rfl, hc, hs⟩
  · simp [build_argument_config, _get_choices, hti, hvals]
  · simp [build_argument_config, _get_choices, hti, hvals, hc, hs]

/-- Witness for C8 at the concrete annotation
`Literal["json", "xml", "csv"]`. -/
theorem C8_literal_choices_witness :
    (build_argument_config
        { name := "fmt",
          type_info := some (resolve_type
            (.literalT [.vstr "json", .vstr "xml", .vstr "csv"]) none) }
        none none).choices =
      some [.vstr "json", .vstr "xml", .vstr "csv"] :=
  (C8_literal_choices [.vstr "json", .vstr "xml", .vstr "csv"] none _
    none none (by decide) rfl (Or.inl rfl)).2

/-- C10: a parameter annotated as an optional boolean gets the same
action and converter as a plain boolean parameter — the presence-flag
action with no converter — because `_get_type_action` looks only at the
resolved origin, which optional unwrapping copies from the inner type. -/
theorem C10_optional_bool_action (tys : PTList)
    (registry : Option ConverterRegistry) (p : ParameterInfo)
    (pre : Option String)
    (hmem : PTList.memB .none_t tys = true)
    (hflt : tys.filterB PT.is_not_none_type = .cons .bool_t .nil)
    (hti : p.type_info = some (resolve_type (.unionT tys) registry)) :
    _get_type_action (some (resolve_type (.unionT tys) registry)) =
      _get_type_action (some (resolve_type .bool_t registry))
    ∧ _get_type_action (some (resolve_type (.unionT tys) registry)) =
      (some "store_true", none)
    ∧ (build_argument_config p none pre).action = some "store_true"
    ∧ (build_argument_config p none pre).type = none := by
  have hres : resolve_type (.unionT tys) registry =
      { resolve_type .bool_t registry with is_optional := true } := by
    rw [resolve_type_optional tys registry hmem, hflt]
    rfl
  have hbool : resolve_type .bool_t registry =
      { origin := some .bool_t, converter := some (.ctor .bool_t) } :=
    resolve_type_basic .bool_t (.ctor .bool_t) registry rfl
  have hact : _get_type_action (some (resolve_type (.unionT tys) registry)) =
      (some "store_true", none) := by
    rw [hres, hbool]
    simp [_get_type_action]
  refine ⟨?_, hact, ?_, ?_⟩
  · rw [hact, hbool]
    simp [_get_type_action]
  · rw [hres, hbool] at hti
    simp [build_argument_config, hti, _get_type_action]
  · rw [hres, hbool] at hti
    simp [build_argument_config, hti, _get_type_action]

/-- Witness for C10 at the concrete annotation `Optional[bool]`. -/
theorem C10_optional_bool_action_witness :
    (build_argument_config
        { name := "verbose",
          type_info := some (resolve_type
            (.unionT (.cons .bool_t (.cons .none_t .nil))) none) }
        none none).action = some "store_true" :=
  (C10_optional_bool_action (.cons .bool_t (.cons .none_t .nil)) none _
    none (by decide) (by decide) rfl).2.2.1

/-- C9: the built help text is exactly the spec's composition — the
docstring-derived description, wholly replaced by a present override help
text, with the ` (default: <repr>)` suffix appended exactly when a
default exists and the text is non-empty, unless the suffix is already
textually present, and never for a `None` default. (The hypothesis is the
documented `ParameterRecord` invariant that a parameter with a default
never carries the MISSING sentinel as its default value.) -/
theorem C9_help_text_composition (param : ParameterInfo) (am : Option Arg)
    (pre : Option String)
    (hskip : (match am with | some m => m.skip | none => false) = false)
    (hmiss : param.has_default = true → param.default ≠ .vmissing) :
    (build_argument_config param am pre).help = help_text_spec param am := by
  by_cases hd : param.has_default = true
  · have hm := hmiss hd
    simp only [build_argument_config, help_text_spec, hskip,
      _format_default_help, hd, hm, Bool.not_true, Bool.false_eq_true,
      false_or, if_false, and_true, true_and, Bool.false_eq_true]
  · simp only [Bool.not_eq_true] at hd
    simp only [build_argument_config, help_text_spec, hskip,
      _format_default_help, hd, Bool.false_eq_true, and_false, false_and,
      if_false]

/-- Witness for C9 at a concrete parameter with a description and an
integer default, no override. -/
theorem C9_help_text_composition_witness :
    (build_argument_config
        { name := "count", description := some "How many",
          default := .vint 1, has_default := true }
        none none).help =
      help_text_spec
        { name := "count", description := some "How many",
          default := .vint 1, has_default := true }
        none :=
  C9_help_text_composition _ none none rfl (fun _ => by decide)

theorem merge_fold_spec (f : String → Option ParameterInfo)
    (c p : String) (w : Bool) :
    ∀ (ps : List ParameterInfo) (m : List ParameterInfo) (s : List String)
      (ws : List ConflictWarning),
    (ps.foldl (merge_step f c p w) (m, s, ws)).1 = m ++ dedupByName s ps
    ∧ (ps.foldl (merge_step f c p w) (m, s, ws)).2.1 =
        s ++ (dedupByName s ps).map (fun q => q.name) := by
  intro ps
  induction ps with
  | nil => intro m s ws; simp [dedupByName]
  | cons q rest ih =>
    intro m s ws
    by_cases hq : q.name ∈ s
    · have hstep : merge_step f c p w (m, s, ws) q =
          (m, s,
            if w then
              (match f q.name with
               | some cp => ws ++ _check_type_conflict cp q c p
               | none => ws)
            else ws) := by
        simp [merge_step, hq]
      simp only [List.foldl_cons, hstep]
      constructor
      · rw [(ih m s _).1, dedupByName, if_pos hq]
      · rw [(ih m s _).2, dedupByName, if_pos hq]
    · have hstep : merge_step f c p w (m, s, ws) q =
          (m ++ [q], s ++ [q.name], ws) := by
        simp [merge_step, hq]
      simp only [List.foldl_cons, hstep]
      constructor
      · rw [(ih (m ++ [q]) (s ++ [q.name]) ws).1, dedupByName, if_neg hq]
        simp
      · rw [(ih (m ++ [q]) (s ++ [q.name]) ws).2, dedupByName, if_neg hq]
        simp

/-- The merged list of `merge_parameters`: all child parameters followed
by the parent parameters whose names are not already taken, first
occurrence per name, in order. -/
theorem merge_parameters_fst (cs ps : List ParameterInfo) (c p : String)
    (w : Bool) :
    (merge_parameters cs ps c p w).1 =
      cs ++ dedupByName (cs.map (fun q => q.name)) ps := by
  unfold merge_parameters
  exact (merge_fold_spec (child_by_name_get cs) c p w ps cs _ []).1

theorem merge_fold_nowarn (f : String → Option ParameterInfo)
    (c p : String) :
    ∀ (ps : List ParameterInfo) (m : List ParameterInfo) (s : List String)
      (ws : List ConflictWarning),
    (ps.foldl (merge_step f c p false) (m, s, ws)).2.2 = ws := by
  intro ps
  induction ps with
  | nil => intro m s ws; rfl
  | cons q rest ih =>
    intro m s ws
    by_cases hq : q.name ∈ s
    · have hstep : merge_step f c p false (m, s, ws) q = (m, s, ws) := by
        simp [merge_step, hq]
      simp only [List.foldl_cons, hstep]
      exact ih m s ws
    · have hstep : merge_step f c p false (m, s, ws) q =
          (m ++ [q], s ++ [q.name], ws) := by
        simp [merge_step, hq]
      simp only [List.foldl_cons, hstep]
      exact ih _ _ ws

theorem merge_fold_warn (f : String → Option ParameterInfo)
    (c p : String) :
    ∀ (ps : List ParameterInfo) (m : List ParameterInfo) (s : List String)
      (ws : List ConflictWarning),
    (∀ n, (f n).isSome = true → n ∈ s) →
    (ps.foldl (merge_step f c p true) (m, s, ws)).2.2 =
      ws ++ (ps.map (fun q =>
        match f q.name with
        | some cp => _check_type_conflict cp q c p
        | none => [])).flatten := by
  intro ps
  induction ps with
  | nil => intro m s ws _; simp
  | cons q rest ih =>
    intro m s ws hf
    by_cases hq : q.name ∈ s
    · have hstep : merge_step f c p true (m, s, ws) q =
          (m, s, ws ++ (match f q.name with
            | some cp => _check_type_conflict cp q c p
            | none => [])) := by
        match hfq : f q.name with
        | some cp => simp [merge_step, hq, hfq]
        | none => simp [merge_step, hq, hfq]
      simp only [List.foldl_cons, hstep]
      rw [ih m s _ hf]
      simp [List.flatten_cons, List.append_assoc]
    · have hfq : f q.name = none := by
        match hfq : f q.name with
        | none => rfl
        | some cp =>
          exact absurd (hf q.name (by simp [hfq])) hq
      have hstep : merge_step f c p true (m, s, ws) q =
          (m ++ [q], s ++ [q.name], ws) := by
        simp [merge_step, hq]
      simp only [List.foldl_cons, hstep]
      rw [ih _ _ ws (fun n hn => List.mem_append_left _ (hf n hn))]
      simp [hfq]

theorem dedupByName_append :
    ∀ (A B : List ParameterInfo) (s : List String),
    dedupByName s (A ++ B) =
      dedupByName s A ++
        dedupByName (s ++ (dedupByName s A).map (fun q => q.name)) B := by
  intro A
  induction A with
  | nil => intro B s; simp [dedupByName]
  | cons q rest ih =>
    intro B s
    by_cases hq : q.name ∈ s
    · simp only [List.cons_append, dedupByName, if_pos hq]
      exact ih B s
    · simp only [List.cons_append, dedupByName, if_neg hq, List.map_cons,
        List.cons_append, List.append_eq]
      rw [ih B (s ++ [q.name])]
      simp [List.append_assoc]

theorem mem_name_dedup :
    ∀ (l : List ParameterInfo) (s : List String) (n : String),
    n ∈ (dedupByName s l).map (fun q => q.name) ↔
      (n ∈ l.map (fun q => q.name) ∧ n ∉ s) := by
  intro l
  induction l with
  | nil => intro s n; simp [dedupByName]
  | cons q rest ih =>
    intro s n
    by_cases hq : q.name ∈ s
    · simp only [dedupByName, if_pos hq, ih, List.map_cons, List.mem_cons]
      constructor
      · rintro ⟨h1, h2⟩; exact ⟨Or.inr h1, h2⟩
      · rintro ⟨h1 | h1, h2⟩
        · exact absurd (h1 ▸ hq) h2
        · exact ⟨h1, h2⟩
    · simp only [dedupByName, if_neg hq, List.map_cons, List.mem_cons, ih,
        List.mem_append, List.mem_singleton]
      constructor
      · rintro (rfl | ⟨h1, h2⟩)
        · exact ⟨Or.inl rfl, hq⟩
        · refine ⟨Or.inr h1, fun hn => h2 (Or.inl hn)⟩
      · rintro ⟨rfl | h1, h2⟩
        · exact Or.inl rfl
        · by_cases hqn : n = q.name
          · exact Or.inl hqn
          · refine Or.inr ⟨h1, fun hc => ?_⟩
            rcases hc with hc | hc
            · exact h2 hc
            · exact hqn (by simpa using hc)

theorem dedup_names_nodup :
    ∀ (l : List ParameterInfo) (s : List String),
    ((dedupByName s l).map (fun q => q.name)).Nodup := by
  intro l
  induction l with
  | nil => intro s; simp [dedupByName]
  | cons q rest ih =>
    intro s
    by_cases hq : q.name ∈ s
    · simp only [dedupByName, if_pos hq]
      exact ih s
    · simp only [dedupByName, if_neg hq, List.map_cons, List.nodup_cons]
      refine ⟨fun hmem => ?_, ih (s ++ [q.name])⟩
      have := (mem_name_dedup rest (s ++ [q.name]) q.name).mp hmem
      exact this.2 (List.mem_append_right _ (List.mem_singleton.mpr rfl))

theorem dedup_find? :
    ∀ (l : List ParameterInfo) (s : List String) (n : String), n ∉ s →
    (dedupByName s l).find? (fun q => q.name = n) =
      l.find? (fun q => q.name = n) := by
  intro l
  induction l with
  | nil => intro s n _; simp [dedupByName]
  | cons q rest ih =>
    intro s n hn
    by_cases hq : q.name ∈ s
    · have hqn : ¬(q.name = n) := fun e => hn (e ▸ hq)
      simp only [dedupByName, if_pos hq]
      rw [List.find?_cons_of_neg _ (by simpa using hqn)]
      exact ih s n hn
    · simp only [dedupByName, if_neg hq]
      by_cases hqn : q.name = n
      · rw [List.find?_cons_of_pos _ (by simpa using hqn),
          List.find?_cons_of_pos _ (by simpa using hqn)]
      · rw [List.find?_cons_of_neg _ (by simpa using hqn),
          List.find?_cons_of_neg _ (by simpa using hqn)]
        refine ih (s ++ [q.name]) n (fun hc => ?_)
        rcases List.mem_append.mp hc with hc | hc
        · exact hn hc
        · exact hqn (List.mem_singleton.mp hc).symm

theorem dedup_eq_self :
    ∀ (l : List ParameterInfo) (s : List String),
    (l.map (fun q => q.name)).Nodup →
    (∀ n ∈ l.map (fun q => q.name), n ∉ s) →
    dedupByName s l = l := by
  intro l
  induction l with
  | nil => intro s _ _; rfl
  | cons q rest ih =>
    intro s hnd hdis
    have hnd2 : q.name ∉ rest.map (fun r => r.name) ∧
        (rest.map (fun r => r.name)).Nodup := by
      rw [List.map_cons, List.nodup_cons] at hnd; exact hnd
    have hq : q.name ∉ s := hdis q.name (List.mem_cons_self _ _)
    simp only [dedupByName, if_neg hq]
    congr 1
    refine ih (s ++ [q.name]) hnd2.2 ?_
    intro n hn hc
    rcases List.mem_append.mp hc with hc | hc
    · exact hdis n (List.mem_cons_of_mem _ hn) hc
    · have : n = q.name := List.mem_singleton.mp hc
      exact hnd2.1 (this ▸ hn)

theorem find?_reverse_of_nodup :
    ∀ (l : List ParameterInfo) (n : String),
    (l.map (fun q => q.name)).Nodup →
    l.reverse.find? (fun q => q.name = n) = l.find? (fun q => q.name = n) := by
  intro l
  induction l with
  | nil => intro n _; rfl
  | cons q rest ih =>
    intro n hnd
    have hnd' : q.name ∉ rest.map (fun r => r.name) ∧
        (rest.map (fun r => r.name)).Nodup := by
      rw [List.map_cons, List.nodup_cons] at hnd; exact hnd
    simp only [List.reverse_cons, List.find?_append]
    by_cases hqn : q.name = n
    · have hnone : rest.reverse.find? (fun x => x.name = n) = none := by
        rw [List.find?_eq_none]
        intro x hx hpx
        have hxname : x.name = n := by simpa using hpx
        have hxr : x ∈ rest := List.mem_reverse.mp hx
        refine hnd'.1 ?_
        have hmx : x.name ∈ rest.map (fun r => r.name) :=
          List.mem_map_of_mem _ hxr
        rwa [hxname, ← hqn] at hmx
      rw [hnone, List.find?_cons_of_pos _ (by simpa using hqn)]
      simp [List.find?, hqn]
    · rw [ih n hnd'.2,
        @List.find?_cons_of_neg _ (fun r => decide (r.name = n)) q rest
          (by simpa using hqn)]
      have hone : List.find? (fun r => r.name = n) [q] = none := by
        simp [List.find?, hqn]
      rw [hone]
      simp

theorem child_by_name_isSome (cs : List ParameterInfo) (n : String)
    (h : (child_by_name_get cs n).isSome = true) :
    n ∈ cs.map (fun q => q.name) := by
  unfold child_by_name_get at h
  match hf : cs.reverse.find? (fun p => p.name = n) with
  | none => rw [hf] at h; simp at h
  | some x =>
    have hx : x ∈ cs.reverse := List.mem_of_find?_eq_some hf
    have hpx : x.name = n := by simpa using List.find?_some hf
    have : x ∈ cs := List.mem_reverse.mp hx
    exact hpx ▸ List.mem_map_of_mem _ this

theorem traverse_fold (c0 : String) (w : Bool) :
    ∀ (rest : List PyClassDef) (acc : List ParameterInfo)
      (seenC : List String) (ws : List ConflictWarning),
    (∀ c ∈ rest, c.cname ∉ seenC) → ((rest.map (fun c => c.cname)).Nodup) →
    (rest.foldl (traverse_step c0 w) (acc, seenC, ws)).1 =
      acc ++ dedupByName (acc.map (fun q => q.name))
        ((rest.map (fun c => c.params)).flatten) := by
  intro rest
  induction rest with
  | nil => intro acc seenC ws _ _; simp [dedupByName]
  | cons parent rest' ih =>
    intro acc seenC ws hseen hnd
    have hp : parent.cname ∉ seenC := hseen parent (List.mem_cons_self _ _)
    have hnd2 : parent.cname ∉ rest'.map (fun c => c.cname) ∧
        (rest'.map (fun c => c.cname)).Nodup := by
      rw [List.map_cons, List.nodup_cons] at hnd; exact hnd
    have hseen' : ∀ c ∈ rest', c.cname ∉ seenC ++ [parent.cname] := by
      intro c hc hmem
      rcases List.mem_append.mp hmem with hmem | hmem
      · exact hseen c (List.mem_cons_of_mem _ hc) hmem
      · have : c.cname = parent.cname := List.mem_singleton.mp hmem
        exact hnd2.1 (this ▸ List.mem_map_of_mem _ hc)
    by_cases hps : parent.params = []
    · have hstep : traverse_step c0 w (acc, seenC, ws) parent =
          (acc, seenC ++ [parent.cname], ws) := by
        simp [traverse_step, hp, hps]
      simp only [List.foldl_cons, hstep]
      rw [ih acc (seenC ++ [parent.cname]) ws hseen' hnd2.2]
      simp [hps]
    · have hstep : traverse_step c0 w (acc, seenC, ws) parent =
          ((merge_parameters acc parent.params c0 parent.cname w).1,
            seenC ++ [parent.cname],
            ws ++ (merge_parameters acc parent.params c0 parent.cname w).2) := by
        simp [traverse_step, hp, hps]
      simp only [List.foldl_cons, hstep]
      rw [ih _ (seenC ++ [parent.cname]) _ hseen' hnd2.2]
      rw [merge_parameters_fst]
      rw [List.map_cons, List.flatten_cons, dedupByName_append,
        List.map_append, List.append_assoc]

/-- C2: the MRO parameter merge over the linearized ancestor chain (root
excluded) equals the spec's description — every parameter name exactly
once, the most-derived declaration of each colliding name kept with its
record intact, the most-derived class's own parameters first, each
ancestor's not-yet-seen parameters appended in ancestor order with
declaration order preserved — i.e. first-occurrence de-duplication of the
concatenated per-class parameter lists, whose name list is duplicate-free
and whose per-name entry is the first declaration in chain order. -/
theorem C2_mro_merge (mro : List PyClassDef) (w : Bool)
    (hcls : (mro.map (fun c => c.cname)).Nodup)
    (hp : ∀ c ∈ mro, (c.params.map (fun q => q.name)).Nodup) :
    (traverse_mro mro w).1 = merged_chain_spec mro
    ∧ ((traverse_mro mro w).1.map (fun q => q.name)).Nodup
    ∧ ∀ n, (traverse_mro mro w).1.find? (fun q => q.name = n) =
        ((mro.map (fun c => c.params)).flatten).find? (fun q => q.name = n) := by
  have hmain : (traverse_mro mro w).1 = merged_chain_spec mro := by
    match mro with
    | [] => rfl
    | cls0 :: rest =>
      have hnd2 : cls0.cname ∉ rest.map (fun c => c.cname) ∧
          (rest.map (fun c => c.cname)).Nodup := by
        rw [List.map_cons, List.nodup_cons] at hcls; exact hcls
      have hseen : ∀ c ∈ rest, c.cname ∉ [cls0.cname] := by
        intro c hc hmem
        have : c.cname = cls0.cname := List.mem_singleton.mp hmem
        exact hnd2.1 (this ▸ List.mem_map_of_mem _ hc)
      have h0 : dedupByName [] cls0.params = cls0.params :=
        dedup_eq_self cls0.params []
          (hp cls0 (List.mem_cons_self _ _)) (by intro n _; simp)
      show (rest.foldl (traverse_step cls0.cname w)
          (cls0.params, [cls0.cname], [])).1 = _
      rw [traverse_fold cls0.cname w rest cls0.params [cls0.cname] []
        hseen hnd2.2]
      unfold merged_chain_spec
      rw [List.map_cons, List.flatten_cons, dedupByName_append, h0]
      simp
  refine ⟨hmain, ?_, ?_⟩
  · rw [hmain]
    exact dedup_names_nodup _ []
  · intro n
    rw [hmain]
    exact dedup_find? _ [] n (by simp)

/-- Witness for C2 on a diamond hierarchy: D(B, C), both deriving from A;
B and C contribute unique names, A contributes a shared name reachable
through both sides of the diamond, D overrides a name also declared by B. -/
theorem C2_mro_merge_witness :
    (traverse_mro
        [{ cname := "D", params := [{ name := "x", ann := some .int_t }] },
         { cname := "B", params := [{ name := "b" },
            { name := "x", ann := some .str_t }] },
         { cname := "C", params := [{ name := "c" }] },
         { cname := "A", params := [{ name := "shared" }] }] true).1 =
      merged_chain_spec
        [{ cname := "D", params := [{ name := "x", ann := some .int_t }] },
         { cname := "B", params := [{ name := "b" },
            { name := "x", ann := some .str_t }] },
         { cname := "C", params := [{ name := "c" }] },
         { cname := "A", params := [{ name := "shared" }] }] :=
  (C2_mro_merge _ true (by decide) (by decide)).1

theorem warn_formula (cs : List ParameterInfo) (c p : String)
    (hnd : (cs.map (fun q => q.name)).Nodup) :
    ∀ (ps : List ParameterInfo),
    (ps.map (fun q =>
      match child_by_name_get cs q.name with
      | some cp => _check_type_conflict cp q c p
      | none => [])).flatten = conflict_warnings_spec cs ps c p := by
  intro ps
  induction ps with
  | nil => rfl
  | cons q rest ih =>
    have hcbn : child_by_name_get cs q.name =
        cs.find? (fun r => r.name = q.name) :=
      find?_reverse_of_nodup cs q.name hnd
    have hspec : conflict_warnings_spec cs (q :: rest) c p =
        (match cs.find? (fun r => r.name = q.name) with
         | some cp =>
           (match cp.ann, q.ann with
            | some ct, some pt =>
              if ct ≠ pt then
                [{ param_name := q.name, child_cls := c, parent_cls := p,
                   child_type := ct, parent_type := pt }]
              else []
            | _, _ => [])
         | none => []) ++ conflict_warnings_spec cs rest c p := by
      unfold conflict_warnings_spec
      rw [List.filterMap_cons]
      rcases hf : cs.find? (fun x => x.name = q.name) with _ | cp
      · simp [hf]
      · rcases hca : cp.ann with _ | ct
        · rcases hqa : q.ann with _ | pt
          · simp [hf, hca, hqa]
          · simp [hf, hca, hqa]
        · rcases hqa : q.ann with _ | pt
          · simp [hf, hca, hqa]
          · by_cases hne : ct = pt
            · simp [hf, hca, hqa, hne]
            · simp [hf, hca, hqa, hne]
    rw [List.map_cons, List.flatten_cons, hcbn, ih, hspec]
    congr 1
    rcases hf : cs.find? (fun x => x.name = q.name) with _ | cp
    · simp only [hf]
    · have hname : cp.name = q.name := by simpa using List.find?_some hf
      match hca : cp.ann, hqa : q.ann with
      | some ct, some pt =>
        simp only [hf, _check_type_conflict, hca, hqa, hname]
      | some ct, none => simp only [hf, _check_type_conflict, hca, hqa]
      | none, some pt => simp only [hf, _check_type_conflict, hca, hqa]
      | none, none => simp only [hf, _check_type_conflict, hca, hqa]

/-- C4: with conflict warnings enabled, the merge emits exactly one
warning per name collision in which both the derived and the ancestor
version declare a non-none annotation and the two differ — the warning
carrying both class names and both types — and no warning when either
side is unannotated; with warnings disabled it emits none. The derived
record is kept regardless (third conjunct). -/
theorem C4_conflict_warnings (cs ps : List ParameterInfo) (c p : String)
    (hnd : (cs.map (fun q => q.name)).Nodup) :
    (merge_parameters cs ps c p true).2 = conflict_warnings_spec cs ps c p
    ∧ (merge_parameters cs ps c p false).2 = []
    ∧ (merge_parameters cs ps c p true).1 =
        cs ++ dedupByName (cs.map (fun q => q.name)) ps := by
  refine ⟨?_, ?_, merge_parameters_fst cs ps c p true⟩
  · unfold merge_parameters
    rw [merge_fold_warn (child_by_name_get cs) c p ps cs
      (cs.map (fun q => q.name)) [] (fun n hn => child_by_name_isSome cs n hn)]
    rw [List.nil_append]
    exact warn_formula cs c p hnd ps
  · unfold merge_parameters
    exact merge_fold_nowarn (child_by_name_get cs) c p ps cs _ []

/-- Witness for C4 at the spec's scenario: ancestor declares
`value : str`, the derived class declares `value : int`; one conflict
warning is emitted with warnings enabled. -/
theorem C4_conflict_warnings_witness :
    (merge_parameters [{ name := "value", ann := some .int_t }]
        [{ name := "value", ann := some .str_t }] "Child" "Base" true).2 =
      conflict_warnings_spec [{ name := "value", ann := some .int_t }]
        [{ name := "value", ann := some .str_t }] "Child" "Base" :=
  (C4_conflict_warnings [{ name := "value", ann := some .int_t }]
    [{ name := "value", ann := some .str_t }] "Child" "Base" (by decide)).1
